import Mathlib

set_option maxHeartbeats 1000000
set_option autoImplicit false

/-!
Shallow embedding of `src/lib/downstream.ts` (MoonTV).

JavaScript strings are modelled as `List Char`; `String` appears at the
record boundary only.  The regular expressions of the source are compiled
by hand into deterministic scanners implementing the exact leftmost-match,
lazy-quantifier semantics of the patterns involved.  Fetch outcomes are
modelled as an explicit datatype, and functions that may throw return
`Except JsError`.
-/

/-- The JavaScript `\s` character class (as used by `trim`, `replace(/\s+/g)`
and the negated class `[^"'\s]`). -/
def jsIsSpace (c : Char) : Bool :=
  c = ' ' || c = '\t' || c = '\n' || c = '\r' || c = '\x0b' || c = '\x0c' ||
  c = '\u00A0' || c = '\u1680' || ('\u2000' ≤ c && c ≤ '\u200A') ||
  c = '\u2028' || c = '\u2029' || c = '\u202F' || c = '\u205F' ||
  c = '\u3000' || c = '\uFEFF'

/-- The character class `[^"'\s]` from the URL-matching patterns
(`Char.ofNat 39` is the single-quote character). -/
def urlChar (c : Char) : Bool :=
  !(c = '"' || c = Char.ofNat 39 || jsIsSpace c)

/-- JavaScript `String.prototype.trim`. -/
def jsTrim (cs : List Char) : List Char :=
  ((cs.dropWhile jsIsSpace).reverse.dropWhile jsIsSpace).reverse

/-- `replace(/\s+/g, ' ')`: every maximal run of whitespace becomes one
space; `inRun` records whether the previous character belonged to a run. -/
def collapseWs (inRun : Bool) : List Char → List Char
  | [] => []
  | c :: rest =>
    if jsIsSpace c then
      if inRun then collapseWs true rest else ' ' :: collapseWs true rest
    else c :: collapseWs false rest

/-- `vod_name.trim().replace(/\s+/g, ' ')` (line 43 of the source). -/
def normalizeTitle (s : String) : String :=
  String.mk (collapseWs false (jsTrim s.data))

/-- JavaScript `String.prototype.split` with a non-empty literal separator
(`'$$$'`, `'#'`, `'$'`).  The fuel is one more than the length of the
string, which is enough since every step consumes at least one character. -/
def splitOnAux (sep : List Char) : Nat → List Char → List Char → List (List Char)
  | 0, acc, cs => [acc.reverse ++ cs]
  | fuel + 1, acc, cs =>
    if sep.isPrefixOf cs then
      acc.reverse :: splitOnAux sep fuel [] (cs.drop sep.length)
    else
      match cs with
      | [] => [acc.reverse]
      | c :: rest => splitOnAux sep fuel (c :: acc) rest

/-- `str.split(sep)` for a non-empty `sep`. -/
def splitOnL (sep cs : List Char) : List (List Char) :=
  splitOnAux sep (cs.length + 1) [] cs

/-- `Array.from(new Set(xs))`: deduplication keeping the first occurrence
of each element, in first-seen order. -/
def uniqueFirstAux {α : Type} [DecidableEq α] : Nat → List α → List α
  | 0, _ => []
  | _, [] => []
  | fuel + 1, x :: xs => x :: uniqueFirstAux fuel (xs.filter (fun y => y ≠ x))

/-- `Array.from(new Set(l))`. -/
def uniqueFirst {α : Type} [DecidableEq α] (l : List α) : List α :=
  uniqueFirstAux l.length l

/-- The prefix of `cs` strictly before its first `'('`, when `cs` contains
one (`indexOf` returning a positive index means the recursion below is
reached with a non-`'('` head). -/
def takeUntilParen : List Char → Option (List Char)
  | [] => none
  | c :: rest =>
    if c = '(' then some []
    else (takeUntilParen rest).map (fun pre => c :: pre)

/-- `parenIndex = link.indexOf('('); parenIndex > 0 ? link.substring(0, parenIndex) : link`. -/
def trimParenL (cs : List Char) : List Char :=
  match cs with
  | [] => []
  | c :: rest =>
    if c = '(' then c :: rest
    else
      match takeUntilParen rest with
      | some pre => c :: pre
      | none => c :: rest

/-- `link.replace(/^\$/, '')`. -/
def stripLeadingDollar (cs : List Char) : List Char :=
  match cs with
  | [] => []
  | c :: rest => if c = '$' then rest else c :: rest

/-- The characters strictly before the first occurrence of the literal
`lit` in `cs` (`none` when `lit` does not occur). -/
def takeUntilLit (lit : List Char) (cs : List Char) : Option (List Char) :=
  if lit.isPrefixOf cs then some []
  else
    match cs with
    | [] => none
    | c :: rest => (takeUntilLit lit rest).map (fun pre => c :: pre)

/-- `"http://"` as a character list. -/
def httpPre : List Char := "http://".data

/-- `"https://"` as a character list. -/
def httpsPre : List Char := "https://".data

/-- `https?:\/\/` — the greedy `s?` is resolved deterministically because
`"https://"` and `"http://"` cannot both be prefixes of the same string. -/
def matchProto (cs : List Char) : Option (List Char × List Char) :=
  if httpsPre.isPrefixOf cs then some (httpsPre, cs.drop httpsPre.length)
  else if httpPre.isPrefixOf cs then some (httpPre, cs.drop httpPre.length)
  else none

/-- Match the literal `lit` at the current position. -/
def expectLit (lit cs : List Char) : Option (List Char × List Char) :=
  if lit.isPrefixOf cs then some (lit, cs.drop lit.length) else none

/-- `[^"'\s]+?` followed by `tail`: the lazy quantifier takes the least
number (at least one) of class characters after which `tail` matches. -/
def lazyBodyThen (tail : List Char → Option (List Char × List Char)) :
    List Char → Option (List Char × List Char)
  | [] => none
  | c :: rest =>
    if urlChar c then
      match tail rest with
      | some (t, rem) => some (c :: t, rem)
      | none =>
        match lazyBodyThen tail rest with
        | some (b, rem) => some (c :: b, rem)
        | none => none
    else none

/-- The lowercase-hex class `[a-f0-9]`. -/
def isHexLower (c : Char) : Bool :=
  c.isDigit || ('a' ≤ c && c ≤ 'f')

/-- `\/\d{8}\/\d+_[a-f0-9]+\/index\.m3u8` — the tail of the ffzy-specific
pattern.  The greedy `\d+` and `[a-f0-9]+` need no backtracking because the
respective following literals (`'_'`, `'/'`) are outside those classes. -/
def matchFfzyTail (cs : List Char) : Option (List Char × List Char) :=
  match expectLit ['/'] cs with
  | none => none
  | some (_, r1) =>
    let d8 := r1.take 8
    if d8.length = 8 && d8.all Char.isDigit then
      match expectLit ['/'] (r1.drop 8) with
      | none => none
      | some (_, r3) =>
        let ds := r3.takeWhile Char.isDigit
        if ds.isEmpty then none
        else
          match expectLit ['_'] (r3.drop ds.length) with
          | none => none
          | some (_, r5) =>
            let hs := r5.takeWhile isHexLower
            if hs.isEmpty then none
            else
              match expectLit "/index.m3u8".data (r5.drop hs.length) with
              | none => none
              | some (_, r7) =>
                some ('/' :: d8 ++ '/' :: ds ++ '_' :: hs ++ "/index.m3u8".data, r7)
    else none

/-- The literal tail `\.m3u8`. -/
def m3u8Tail (cs : List Char) : Option (List Char × List Char) :=
  expectLit ".m3u8".data cs

/-- The literal tail `\.jpg`. -/
def jpgTail (cs : List Char) : Option (List Char × List Char) :=
  expectLit ".jpg".data cs

/-- A full match of `https?:\/\/[^"'\s]+?` followed by `tail` at the
current position; returns the matched characters and the remainder. -/
def matchUrlAt (tail : List Char → Option (List Char × List Char))
    (cs : List Char) : Option (List Char × List Char) :=
  match matchProto cs with
  | none => none
  | some (p, r) =>
    match lazyBodyThen tail r with
    | some (b, rem) => some (p ++ b, rem)
    | none => none

/-- The dollar-prefixed variant `\$https?:\/\/[^"'\s]+?` + `tail`. -/
def matchDollarUrlAt (tail : List Char → Option (List Char × List Char))
    (cs : List Char) : Option (List Char × List Char) :=
  match cs with
  | [] => none
  | c :: rest =>
    if c = '$' then
      match matchUrlAt tail rest with
      | some (m, rem) => some ('$' :: m, rem)
      | none => none
    else none

/-- `/\$(https?:\/\/[^"'\s]+?\.m3u8)/g` (lines 25 and 248 of the source;
with the `g` flag, `String.match` returns the full matches, dollar sign
included). -/
def m3u8Regex : List Char → Option (List Char × List Char) :=
  matchDollarUrlAt m3u8Tail

/-- `const M3U8_PATTERN = /(https?:\/\/[^"'\s]+?\.m3u8)/g` (line 139):
note the absence of a dollar prefix. -/
def M3U8_PATTERN : List Char → Option (List Char × List Char) :=
  matchUrlAt m3u8Tail

/-- The ffzy-specific pattern of line 243. -/
def ffzyPattern : List Char → Option (List Char × List Char) :=
  matchDollarUrlAt matchFfzyTail

/-- `/(https?:\/\/[^"'\s]+?\.jpg)/g` (line 266). -/
def jpgPattern : List Char → Option (List Char × List Char) :=
  matchUrlAt jpgTail

/-- Global (`g`-flag) matching: scan left to right; on a match continue
after it, otherwise advance one character.  Every step consumes at least
one character, so `cs.length + 1` fuel is always enough. -/
def scanAllF (m : List Char → Option (List Char × List Char)) :
    Nat → List Char → List (List Char)
  | 0, _ => []
  | fuel + 1, cs =>
    match m cs with
    | some (mt, rem) => mt :: scanAllF m fuel rem
    | none =>
      match cs with
      | [] => []
      | _ :: rest => scanAllF m fuel rest

/-- `str.match(pattern)` with the `g` flag (list of full matches). -/
def scanAllL (m : List Char → Option (List Char × List Char))
    (cs : List Char) : List (List Char) :=
  scanAllF m (cs.length + 1) cs

/-- First match (`match` without the `g` flag), returning whatever the
positional matcher extracts. -/
def firstMatchBy {α : Type} (m : List Char → Option α) : List Char → Option α
  | [] => m []
  | c :: rest =>
    match m (c :: rest) with
    | some r => some r
    | none => firstMatchBy m rest

/-! ## Data model (`@/lib/config`, `@/lib/types`, the `ApiSearchItem` shape) -/

instance instDecEqExcept {ε α : Type} [DecidableEq ε] [DecidableEq α] :
    DecidableEq (Except ε α) := fun a b =>
  match a, b with
  | .ok x, .ok y =>
    if h : x = y then .isTrue (by rw [h])
    else .isFalse (fun hh => h (by injection hh))
  | .error x, .error y =>
    if h : x = y then .isTrue (by rw [h])
    else .isFalse (fun hh => h (by injection hh))
  | .ok _, .error _ => .isFalse (fun hh => Except.noConfusion hh)
  | .error _, .ok _ => .isFalse (fun hh => Except.noConfusion hh)

/-- A source descriptor (`ApiSite` from `@/lib/config`): `detail` is the
optional HTML-detail base URL whose (JavaScript) truthiness selects the
scraping branch. -/
structure ApiSite where
  key : String
  name : String
  api : String
  detail : Option String
deriving DecidableEq

/-- One raw item of a search/detail payload (`interface ApiSearchItem`).
Optional fields are `Option`; `none` models an absent (undefined) field. -/
structure ApiSearchItem where
  vod_id : String
  vod_name : String
  vod_pic : String
  vod_remarks : Option String := none
  vod_play_url : Option String := none
  vod_class : Option String := none
  vod_year : Option String := none
  vod_content : Option String := none
  vod_douban_id : Option Nat := none
  type_name : Option String := none
deriving DecidableEq

/-- The canonical output record (`SearchResult` from `@/lib/types`). -/
structure SearchResult where
  id : String
  title : String
  poster : String
  episodes : List String
  source : String
  source_name : String
  «class» : Option String
  year : String
  desc : String
  type_name : Option String
  douban_id : Option Nat
deriving DecidableEq

/-- JavaScript truthiness of an optional string field
(`undefined` and `''` are falsy). -/
def jsTruthyStr : Option String → Bool
  | none => false
  | some s => !s.data.isEmpty

/-- First match of `/\d{4}/` at the current position. -/
def digits4At : List Char → Option (List Char)
  | a :: b :: c :: d :: _ =>
    if a.isDigit && b.isDigit && c.isDigit && d.isDigit then some [a, b, c, d]
    else none
  | _ => none

/-- First match of `/\d{4}/` anywhere in the string. -/
def find4Digits : List Char → Option (List Char)
  | [] => none
  | c :: rest =>
    match digits4At (c :: rest) with
    | some m => some m
    | none => find4Digits rest

/-- `vod_year ? vod_year.match(/\d{4}/)?.[0] || '' : 'unknown'`
(lines 49-51 and 209-211 of the source). -/
def normalizeYear (vodYear : Option String) : String :=
  match vodYear with
  | none => "unknown"
  | some y =>
    if y.data.isEmpty then "unknown"
    else
      match find4Digits y.data with
      | some m => String.mk m
      | none => ""

/-! ## `transformApiSearchItem` (lines 21-56) -/

/-- The play-source group selection of lines 26-32: split on `'$$$'` and
keep the group whose (dollar-prefixed `.m3u8`) match list is strictly
longer than the best so far — ties keep the earlier group. -/
def selectStep (episodes : List (List Char)) (url : List Char) : List (List Char) :=
  let ms := scanAllL m3u8Regex url
  if ms.length > episodes.length then ms else episodes

/-- The fold of lines 27-32 over the split play URL. -/
def selectBestGroup (playUrl : List Char) : List (List Char) :=
  (splitOnL "$$$".data playUrl).foldl selectStep []

/-- Lines 35-39: `Set`-deduplicate the raw (still dollar-prefixed) matches,
then strip the dollar and cut at a positive `indexOf('(')`. -/
def dedupStripTrim (ms : List (List Char)) : List (List Char) :=
  (uniqueFirst ms).map (fun link => trimParenL (link.drop 1))

/-- `transformApiSearchItem` (lines 21-56).  `clean` models the external
`cleanHtmlTags` collaborator from `@/lib/utils` (not part of this slice);
it receives `none` where the source would pass `undefined`. -/
def transformApiSearchItem (clean : Option String → String)
    (item : ApiSearchItem) (apiSite : ApiSite) : SearchResult :=
  let episodes0 : List (List Char) :=
    if jsTruthyStr item.vod_play_url then
      selectBestGroup (item.vod_play_url.getD "").data
    else []
  let episodes := dedupStripTrim episodes0
  { id := item.vod_id
    title := normalizeTitle item.vod_name
    poster := item.vod_pic
    episodes := episodes.map String.mk
    source := apiSite.key
    source_name := apiSite.name
    «class» := item.vod_class
    year := normalizeYear item.vod_year
    desc := clean (some (item.vod_content.getD ""))
    type_name := item.type_name
    douban_id := item.vod_douban_id }

/-! ## Fetch outcomes and errors -/

/-- The error values a JavaScript computation in this module can throw. -/
inductive JsError where
  /-- `AbortError`: the fetch was aborted by its timeout. -/
  | abortError
  /-- `fetch` rejected for a network reason. -/
  | netError
  /-- `response.json()` / `response.text()` rejected. -/
  | parseError
  /-- `TypeError` from a property access on `null` (`data.pagecount`). -/
  | typeError
  /-- `throw new Error(msg)`. -/
  | jsError (msg : String)
deriving DecidableEq

/-- The parsed JSON body of a search/detail response: either `null`-ish
(falsy) or an object whose `list` is `none` when missing or not an array. -/
inductive JsonBody where
  | null
  | obj (list : Option (List ApiSearchItem)) (pagecount : Option Nat)
deriving DecidableEq

/-- The outcome of one `fetch` of a JSON endpoint, as observed by the code:
aborted by timeout, rejected, or a response with a status and a body that
may fail to parse. -/
inductive FetchOutcome where
  | abort
  | netError
  | response (ok : Bool) (status : Nat) (body : Option JsonBody)
deriving DecidableEq

/-- The outcome of the HTML detail-page `fetch` (body read with `text()`). -/
inductive HtmlOutcome where
  | abort
  | netError
  | response (ok : Bool) (status : Nat) (body : Option String)
deriving DecidableEq

/-- One fetch issued by the module, together with the timeout (in ms)
installed on its `AbortController` — `none` when the call passes no
signal at all (the page-count re-fetch of line 112). -/
inductive FetchEvent where
  | searchPage (page : Nat) (timeoutMs : Option Nat)
  | pageCount (timeoutMs : Option Nat)
  | detailFetch (timeoutMs : Option Nat)
deriving DecidableEq

/-- The timeout recorded on a fetch event. -/
def timeoutOf : FetchEvent → Option Nat
  | .searchPage _ t => t
  | .pageCount t => t
  | .detailFetch t => t

/-! ## `fetchSearchResults` (lines 58-89) -/

/-- The `try` body of `fetchSearchResults`: non-2xx status, missing or
empty `list`, and falsy data all return `[]`; a parse failure throws. -/
def fetchSearchBody (clean : Option String → String) (apiSite : ApiSite)
    (o : FetchOutcome) : Except JsError (List SearchResult) :=
  match o with
  | .abort => .error .abortError
  | .netError => .error .netError
  | .response ok _status body =>
    if !ok then .ok []
    else
      match body with
      | none => .error .parseError
      | some .null => .ok []
      | some (.obj none _) => .ok []
      | some (.obj (some items) _) =>
        if items.length = 0 then .ok []
        else .ok (items.map (fun it => transformApiSearchItem clean it apiSite))

/-- `fetchSearchResults` with its catch-all (lines 81-88): every thrown
error is logged and degraded to the empty list. -/
def fetchSearchResults (clean : Option String → String) (apiSite : ApiSite)
    (o : FetchOutcome) : List SearchResult :=
  match fetchSearchBody clean apiSite o with
  | .ok r => r
  | .error _ => []

/-- Whether a fetch outcome is one of the locally-absorbed failure modes of
`fetchSearchResults`: abort/timeout, network rejection, non-2xx status,
unparsable body, falsy data, or a missing/empty `list` array. -/
def isFailingOutcome : FetchOutcome → Bool
  | .abort => true
  | .netError => true
  | .response ok _ body =>
    !ok ||
      (match body with
       | none => true
       | some .null => true
       | some (.obj none _) => true
       | some (.obj (some items) _) => items.isEmpty)

/-! ## `searchFromApi` (lines 91-136) -/

/-- The page-count re-fetch of lines 112-114: a bare `fetch` (no abort
signal) followed by `response.json()` with **no** `ok` check, then
`data.pagecount || 1` — reading `pagecount` off a `null` body throws. -/
def readPagecount (o : FetchOutcome) : Except JsError Nat :=
  match o with
  | .abort => .error .abortError
  | .netError => .error .netError
  | .response _ _ none => .error .parseError
  | .response _ _ (some .null) => .error .typeError
  | .response _ _ (some (.obj _ pc)) =>
    .ok (match pc with
         | some n => if n = 0 then 1 else n
         | none => 1)

/-- The fetch outcomes a single search call can observe: one per page
(page 1 being the initial request) plus the bare page-count re-fetch. -/
structure SearchEnv where
  pageFetch : Nat → FetchOutcome
  countFetch : FetchOutcome

/-- The arrivals of concurrently running tasks in completion order:
`schedule` lists task indices in the order their promises settle. -/
def arrivalsOf {α : Type} (tasks : List α) (schedule : List Nat) :
    List (Nat × α) :=
  schedule.filterMap (fun i => (tasks.get? i).map (fun v => (i, v)))

/-- `Promise.all`: however the completions interleave, the joined array
holds each task's value at the task's issue index. -/
def promiseAll {α : Type} (tasks : List α) (schedule : List Nat) :
    List (Option α) :=
  (List.range tasks.length).map (fun i => (arrivalsOf tasks schedule).lookup i)

/-- The pages 2..pagesToFetch of the `for` loop at line 122. -/
def extraPages (pagesToFetch : Nat) : List Nat :=
  (List.range (pagesToFetch - 1)).map (fun i => i + 2)

/-- The `try` body of `searchFromApi` (lines 98-131), also recording the
fetches it issues.  `maxPages` is the configured `MAX_SEARCH_PAGES`;
`schedule` is the completion order of the concurrently fetched pages. -/
def searchBodyT (clean : Option String → String) (apiSite : ApiSite)
    (maxPages : Nat) (env : SearchEnv) (schedule : List Nat) :
    Except JsError (List SearchResult) × List FetchEvent :=
  let initialResults := fetchSearchResults clean apiSite (env.pageFetch 1)
  if initialResults.length = 0 then
    (.ok [], [.searchPage 1 (some 8000)])
  else
    match readPagecount env.countFetch with
    | .error e =>
      (.error e, [.searchPage 1 (some 8000), .pageCount none])
    | .ok pageCount =>
      let pagesToFetch := min pageCount maxPages
      if pagesToFetch ≤ 1 then
        (.ok initialResults, [.searchPage 1 (some 8000), .pageCount none])
      else
        let pageNums := extraPages pagesToFetch
        let tasks := pageNums.map
          (fun p => fetchSearchResults clean apiSite (env.pageFetch p))
        let joined := promiseAll tasks schedule
        (.ok (initialResults ++ (joined.map (fun t => t.getD [])).flatten),
         .searchPage 1 (some 8000) :: .pageCount none ::
           pageNums.map (fun p => .searchPage p (some 8000)))

/-- `searchFromApi` with its top-level catch (lines 132-135): any error
escaping the body is logged and converted to the empty list. -/
def searchFromApiT (clean : Option String → String) (apiSite : ApiSite)
    (maxPages : Nat) (env : SearchEnv) (schedule : List Nat) :
    Except JsError (List SearchResult) × List FetchEvent :=
  match searchBodyT clean apiSite maxPages env schedule with
  | (.ok r, tr) => (.ok r, tr)
  | (.error _, tr) => (.ok [], tr)

/-! ## `getDetailFromApi`, JSON branch (lines 141-216) -/

/-- `throw new Error(`详情请求失败: ${response.status}`)` (line 162). -/
def requestFailedMsg (status : Nat) : String :=
  "详情请求失败: " ++ toString status

/-- `throw new Error('获取到的详情内容无效')` (line 173). -/
def invalidPayloadMsg : String := "获取到的详情内容无效"

/-- `throw new Error(`详情页请求失败: ${response.status}`)` (line 235). -/
def htmlRequestFailedMsg (status : Nat) : String :=
  "详情页请求失败: " ++ toString status

/-- Structured-episode extraction (lines 179-194): first `'$$$'` group
only, split on `'#'`, each entry split on `'$'` keeping the part after the
first dollar, keeping only entries that start with `http://`/`https://`. -/
def detailEpisodesStructured (playUrl : List Char) : List (List Char) :=
  match splitOnL "$$$".data playUrl with
  | [] => []
  | mainSource :: _ =>
    ((splitOnL ['#'] mainSource).map (fun ep =>
        let parts := splitOnL ['$'] ep
        if parts.length > 1 then (parts.get? 1).getD [] else []))
      |>.filter (fun url =>
          !url.isEmpty && (httpPre.isPrefixOf url || httpsPre.isPrefixOf url))

/-- The structured episodes of a raw detail item, `[]` when
`vod_play_url` is falsy (lines 177-194). -/
def detailStructuredOf (videoDetail : ApiSearchItem) : List (List Char) :=
  if jsTruthyStr videoDetail.vod_play_url then
    detailEpisodesStructured (videoDetail.vod_play_url.getD "").data
  else []

/-- Fallback content-scan extraction (lines 196-199): `M3U8_PATTERN` has
no dollar prefix, and `replace(/^\$/, '')` is applied to each match. -/
def detailEpisodesFallback (content : List Char) : List (List Char) :=
  (scanAllL M3U8_PATTERN content).map stripLeadingDollar

/-- Normalization of `data.list[0]` into a `SearchResult`
(lines 176-215). -/
def detailResult (clean : Option String → String) (apiSite : ApiSite)
    (id : String) (videoDetail : ApiSearchItem) : SearchResult :=
  let episodes1 := detailStructuredOf videoDetail
  let episodes :=
    if episodes1.length = 0 && jsTruthyStr videoDetail.vod_content then
      detailEpisodesFallback (videoDetail.vod_content.getD "").data
    else episodes1
  { id := id
    title := videoDetail.vod_name
    poster := videoDetail.vod_pic
    episodes := episodes.map String.mk
    source := apiSite.key
    source_name := apiSite.name
    «class» := videoDetail.vod_class
    year := normalizeYear videoDetail.vod_year
    desc := clean videoDetail.vod_content
    type_name := videoDetail.type_name
    douban_id := videoDetail.vod_douban_id }

/-- The JSON branch of `getDetailFromApi` (lines 149-216), with the fetch
event it issues (timeout 10000, line 152).  Non-2xx throws the
status-bearing error; a falsy body or a missing/empty `list` throws the
invalid-payload error; abort/network/parse errors propagate uncaught. -/
def getDetailJsonT (clean : Option String → String) (apiSite : ApiSite)
    (id : String) (o : FetchOutcome) :
    Except JsError SearchResult × List FetchEvent :=
  (match o with
   | .abort => .error .abortError
   | .netError => .error .netError
   | .response ok status body =>
     if !ok then .error (.jsError (requestFailedMsg status))
     else
       match body with
       | none => .error .parseError
       | some .null => .error (.jsError invalidPayloadMsg)
       | some (.obj none _) => .error (.jsError invalidPayloadMsg)
       | some (.obj (some []) _) => .error (.jsError invalidPayloadMsg)
       | some (.obj (some (videoDetail :: _)) _) =>
         .ok (detailResult clean apiSite id videoDetail),
   [.detailFetch (some 10000)])

/-! ## `handleSpecialSourceDetail` (lines 218-285) -/

/-- The four spellings of `class=["']sketch["']` (the two quote
alternatives are independent). -/
def classLits : List (List Char) :=
  ["class=\"sketch\"".data,
   ("class=\"sketch" ++ String.mk [Char.ofNat 39]).data,
   ("class=" ++ String.mk [Char.ofNat 39] ++ "sketch\"").data,
   ("class=" ++ String.mk [Char.ofNat 39] ++ "sketch" ++ String.mk [Char.ofNat 39]).data]

/-- Whether one of the `class=["']sketch["']` literals occurs in `cs`. -/
def hasClassLit : List Char → Bool
  | [] => false
  | c :: rest =>
    classLits.any (fun l => l.isPrefixOf (c :: rest)) || hasClassLit rest

/-- `/<h1[^>]*>([^<]+)<\/h1>/` at the current position, returning the
captured group.  `[^>]*` and `[^<]+` are greedy but deterministic: their
following literals start with the very character the class excludes. -/
def matchH1At (cs : List Char) : Option (List Char) :=
  match expectLit "<h1".data cs with
  | none => none
  | some (_, r1) =>
    match r1.dropWhile (fun c => c ≠ '>') with
    | '>' :: r2 =>
      let body := r2.takeWhile (fun c => c ≠ '<')
      if body.isEmpty then none
      else
        match expectLit "</h1>".data (r2.drop body.length) with
        | some _ => some body
        | none => none
    | _ => none

/-- `/<div[^>]*class=["']sketch["'][^>]*>([\s\S]*?)<\/div>/` at the
current position.  All of `[^>]*class=["']sketch["'][^>]*` lies in the
maximal `'>'`-free run after `<div`, and the `'>'` consumed is the first
one after it regardless of how the run is split, so the group is the text
between that `'>'` and the first following `</div>`. -/
def matchDescAt (cs : List Char) : Option (List Char) :=
  match expectLit "<div".data cs with
  | none => none
  | some (_, r1) =>
    let run := r1.takeWhile (fun c => c ≠ '>')
    match r1.drop run.length with
    | '>' :: r2 => if hasClassLit run then takeUntilLit "</div>".data r2 else none
    | _ => none

/-- `/>(\d{4})</` at the current position, returning the captured group. -/
def matchYearTagAt : List Char → Option (List Char)
  | '>' :: a :: b :: c :: d :: '<' :: _ =>
    if a.isDigit && b.isDigit && c.isDigit && d.isDigit then some [a, b, c, d]
    else none
  | _ => none

/-- `handleSpecialSourceDetail` (lines 218-285) with its fetch event
(timeout 10000, line 225).  For the `'ffzy'` source the strict pattern is
tried first; an empty match set falls back to the general dollar-prefixed
pattern; matches are deduplicated and trimmed exactly as in
`transformApiSearchItem`. -/
def handleSpecialSourceDetailT (clean : Option String → String)
    (id : String) (apiSite : ApiSite) (o : HtmlOutcome) :
    Except JsError SearchResult × List FetchEvent :=
  (match o with
   | .abort => .error .abortError
   | .netError => .error .netError
   | .response ok status body =>
     if !ok then .error (.jsError (htmlRequestFailedMsg status))
     else
       match body with
       | none => .error .parseError
       | some htmlS =>
         let html := htmlS.data
         let ffzyMatches :=
           if apiSite.key = "ffzy" then scanAllL ffzyPattern html else []
         let ms0 :=
           if ffzyMatches.length = 0 then scanAllL m3u8Regex html
           else ffzyMatches
         let ms := dedupStripTrim ms0
         let titleText :=
           match firstMatchBy matchH1At html with
           | some t => String.mk (jsTrim t)
           | none => ""
         let descText :=
           match firstMatchBy matchDescAt html with
           | some d => clean (some (String.mk d))
           | none => ""
         let coverUrl :=
           match scanAllL jpgPattern html with
           | [] => ""
           | m :: _ => String.mk (jsTrim m)
         let yearText :=
           match firstMatchBy matchYearTagAt html with
           | some y => String.mk y
           | none => "unknown"
         .ok { id := id
               title := titleText
               poster := coverUrl
               episodes := ms.map String.mk
               source := apiSite.key
               source_name := apiSite.name
               «class» := some ""
               year := yearText
               desc := descText
               type_name := some ""
               douban_id := some 0 },
   [.detailFetch (some 10000)])

/-- `getDetailFromApi` (lines 141-147): the truthiness of
`apiSite.detail` selects the HTML-scrape branch. -/
def getDetailFromApiT (clean : Option String → String) (apiSite : ApiSite)
    (id : String) (jsonO : FetchOutcome) (htmlO : HtmlOutcome) :
    Except JsError SearchResult × List FetchEvent :=
  if jsTruthyStr apiSite.detail then
    handleSpecialSourceDetailT clean id apiSite htmlO
  else
    getDetailJsonT clean apiSite id jsonO

/-- Whether a character list starts with `http://` or `https://`. -/
def startsHttpB (cs : List Char) : Bool :=
  httpPre.isPrefixOf cs || httpsPre.isPrefixOf cs

/-- Whether a character list ends in `.m3u8`. -/
def endsWithM3u8 (cs : List Char) : Bool :=
  ".m3u8".data.isSuffixOf cs

/-- Whether positions `j .. j+3` of `cs` hold four consecutive digits
(the windows `/\\d{4}/` can match at). -/
def isDigitWindow (cs : List Char) (j : Nat) : Bool :=
  ((cs.drop j).take 4).length = 4 && ((cs.drop j).take 4).all Char.isDigit

/-! ## Lemmas about the scanners -/

theorem expectLit_eq {lit cs t rem : List Char}
    (h : expectLit lit cs = some (t, rem)) : t = lit := by
  unfold expectLit at h
  split at h
  · simp at h
    exact h.1.symm
  · exact absurd h (by simp)

theorem matchProto_shape {cs p r : List Char}
    (h : matchProto cs = some (p, r)) : p = httpPre ∨ p = httpsPre := by
  unfold matchProto at h
  split at h
  · simp at h
    exact Or.inr h.1.symm
  · split at h
    · simp at h
      exact Or.inl h.1.symm
    · exact absurd h (by simp)

theorem matchUrlAt_shape {tail : List Char → Option (List Char × List Char)}
    {cs m rem : List Char} (h : matchUrlAt tail cs = some (m, rem)) :
    ∃ b, m = httpPre ++ b ∨ m = httpsPre ++ b := by
  unfold matchUrlAt at h
  split at h
  · exact absurd h (by simp)
  · rename_i p r hp
    split at h
    · rename_i b rem2 hb
      simp at h
      rcases matchProto_shape hp with hp2 | hp2
      · exact ⟨b, Or.inl (by rw [← h.1, hp2])⟩
      · exact ⟨b, Or.inr (by rw [← h.1, hp2])⟩
    · exact absurd h (by simp)

theorem matchDollarUrlAt_shape {tail : List Char → Option (List Char × List Char)}
    {cs m rem : List Char} (h : matchDollarUrlAt tail cs = some (m, rem)) :
    ∃ m2, m = '$' :: m2 ∧ ∃ b, m2 = httpPre ++ b ∨ m2 = httpsPre ++ b := by
  unfold matchDollarUrlAt at h
  split at h
  · exact absurd h (by simp)
  · rename_i c rest
    split at h
    · rename_i hc
      split at h
      · rename_i m2 rem2 hu
        simp at h
        exact ⟨m2, h.1.symm, matchUrlAt_shape hu⟩
      · exact absurd h (by simp)
    · exact absurd h (by simp)

theorem mem_scanAllF {m : List Char → Option (List Char × List Char)}
    {fuel : Nat} {cs x : List Char} (hx : x ∈ scanAllF m fuel cs) :
    ∃ cs0 rem, m cs0 = some (x, rem) := by
  induction fuel generalizing cs with
  | zero => simp [scanAllF] at hx
  | succ fuel ih =>
    simp only [scanAllF] at hx
    split at hx
    · rename_i mt rem hm
      rcases List.mem_cons.1 hx with hx | hx
      · exact ⟨cs, rem, hx ▸ hm⟩
      · exact ih hx
    · split at hx
      · simp at hx
      · exact ih hx

theorem takeUntilParen_append {p b : List Char} (hp : ∀ c ∈ p, c ≠ '(') :
    takeUntilParen (p ++ b) = (takeUntilParen b).map (fun q => p ++ q) := by
  induction p with
  | nil => simp
  | cons c p ih =>
    have hc : c ≠ '(' := hp c (List.mem_cons_self c p)
    simp only [List.cons_append, takeUntilParen, if_neg hc, List.append_eq]
    rw [ih (fun d hd => hp d (List.mem_cons_of_mem c hd))]
    cases takeUntilParen b <;> simp

theorem trimParenL_keeps {p b : List Char} (hne : p ≠ [])
    (hp : ∀ c ∈ p, c ≠ '(') : ∃ q, trimParenL (p ++ b) = p ++ q := by
  cases p with
  | nil => exact absurd rfl hne
  | cons c p' =>
    have hc : c ≠ '(' := hp c (List.mem_cons_self c p')
    simp only [List.cons_append, trimParenL, if_neg hc, List.append_eq]
    rw [takeUntilParen_append (fun d hd => hp d (List.mem_cons_of_mem c hd))]
    cases hb : takeUntilParen b with
    | none => exact ⟨b, rfl⟩
    | some q => exact ⟨q, rfl⟩

theorem mem_uniqueFirstAux {α : Type} [DecidableEq α] {fuel : Nat}
    {l : List α} {x : α} (hx : x ∈ uniqueFirstAux fuel l) : x ∈ l := by
  induction fuel generalizing l with
  | zero => simp [uniqueFirstAux] at hx
  | succ fuel ih =>
    cases l with
    | nil => simp [uniqueFirstAux] at hx
    | cons y ys =>
      simp only [uniqueFirstAux] at hx
      rcases List.mem_cons.1 hx with hx | hx
      · exact hx ▸ List.mem_cons_self y ys
      · exact List.mem_cons_of_mem y (List.mem_of_mem_filter (ih hx))

theorem mem_uniqueFirst {α : Type} [DecidableEq α] {l : List α} {x : α}
    (hx : x ∈ uniqueFirst l) : x ∈ l :=
  mem_uniqueFirstAux hx

theorem lazyBodyThen_expectLit_suffix {lit : List Char} {cs b rem : List Char}
    (h : lazyBodyThen (expectLit lit) cs = some (b, rem)) :
    ∃ pre, b = pre ++ lit := by
  induction cs generalizing b rem with
  | nil => simp [lazyBodyThen] at h
  | cons c rest ih =>
    simp only [lazyBodyThen] at h
    split at h
    · split at h
      · rename_i t rem2 ht
        simp at h
        exact ⟨[c], by rw [← h.1, expectLit_eq ht]; rfl⟩
      · split at h
        · rename_i b2 rem2 hb2
          simp at h
          obtain ⟨pre, hpre⟩ := ih hb2
          exact ⟨c :: pre, by rw [← h.1, hpre]; rfl⟩
        · exact absurd h (by simp)
    · exact absurd h (by simp)

/-- Every raw match produced by a dollar-prefixed scan is a dollar followed
by an `http(s)://` protocol prefix. -/
theorem scan_dollar_member_shape {tail : List Char → Option (List Char × List Char)}
    {cs x : List Char} (hx : x ∈ scanAllL (matchDollarUrlAt tail) cs) :
    ∃ m2, x = '$' :: m2 ∧ ∃ b, m2 = httpPre ++ b ∨ m2 = httpsPre ++ b := by
  obtain ⟨cs0, rem, hm⟩ := mem_scanAllF hx
  exact matchDollarUrlAt_shape hm

/-- Every raw match produced by an un-prefixed scan starts with an
`http(s)://` protocol prefix. -/
theorem scan_plain_member_shape {tail : List Char → Option (List Char × List Char)}
    {cs x : List Char} (hx : x ∈ scanAllL (matchUrlAt tail) cs) :
    ∃ b, x = httpPre ++ b ∨ x = httpsPre ++ b := by
  obtain ⟨cs0, rem, hm⟩ := mem_scanAllF hx
  exact matchUrlAt_shape hm

theorem foldl_selectStep_cases (gs : List (List Char)) (acc : List (List Char)) :
    gs.foldl selectStep acc = acc ∨
    ∃ url ∈ gs, gs.foldl selectStep acc = scanAllL m3u8Regex url := by
  induction gs generalizing acc with
  | nil => exact Or.inl rfl
  | cons g gs ih =>
    rw [List.foldl_cons]
    rcases ih (selectStep acc g) with h | h
    · rw [h]
      unfold selectStep
      simp only []
      split
      · exact Or.inr ⟨g, List.mem_cons_self g gs, rfl⟩
      · exact Or.inl rfl
    · obtain ⟨url, hu, he⟩ := h
      exact Or.inr ⟨url, List.mem_cons_of_mem g hu, he⟩

theorem isPrefixOf_append_self {α : Type} [DecidableEq α] (l q : List α) :
    l.isPrefixOf (l ++ q) = true := by
  rw [List.isPrefixOf_iff_prefix]
  exact List.prefix_append l q

theorem startsHttpB_of_http {b : List Char} : startsHttpB (httpPre ++ b) = true := by
  unfold startsHttpB
  rw [isPrefixOf_append_self]
  rfl

theorem startsHttpB_of_https {b : List Char} : startsHttpB (httpsPre ++ b) = true := by
  unfold startsHttpB
  rw [isPrefixOf_append_self]
  simp

/-- Episodes surviving the shared dedup/strip/trim postprocessing of a
dollar-prefixed match list keep their protocol prefix: the trim at a
positive `indexOf('(')` can only cut inside the body, past `http(s)://`. -/
theorem dedupStripTrim_starts_http {ms : List (List Char)}
    (hms : ∀ m ∈ ms, ∃ m2, m = '$' :: m2 ∧ ∃ b, m2 = httpPre ++ b ∨ m2 = httpsPre ++ b)
    {l : List Char} (hl : l ∈ dedupStripTrim ms) : startsHttpB l = true := by
  unfold dedupStripTrim at hl
  obtain ⟨link, hlink, rfl⟩ := List.mem_map.1 hl
  obtain ⟨m2, hm2, b, hb⟩ := hms link (mem_uniqueFirst hlink)
  subst hm2
  have hdrop : ('$' :: m2).drop 1 = m2 := rfl
  rw [hdrop]
  rcases hb with hb | hb <;> subst hb
  · obtain ⟨q, hq⟩ := trimParenL_keeps (p := httpPre) (by decide) (by decide)
    rw [hq]
    exact startsHttpB_of_http
  · obtain ⟨q, hq⟩ := trimParenL_keeps (p := httpsPre) (by decide) (by decide)
    rw [hq]
    exact startsHttpB_of_https

/-- The members of the selected play-source group are raw matches of the
dollar-prefixed pattern. -/
theorem selectBestGroup_member_shape {playUrl x : List Char}
    (hx : x ∈ selectBestGroup playUrl) :
    ∃ m2, x = '$' :: m2 ∧ ∃ b, m2 = httpPre ++ b ∨ m2 = httpsPre ++ b := by
  unfold selectBestGroup at hx
  rcases foldl_selectStep_cases (splitOnL "$$$".data playUrl) [] with h | h
  · rw [h] at hx
    simp at hx
  · obtain ⟨url, _, he⟩ := h
    rw [he] at hx
    exact scan_dollar_member_shape hx

theorem transform_episode_starts_http (clean : Option String → String)
    (item : ApiSearchItem) (apiSite : ApiSite) {e : String}
    (he : e ∈ (transformApiSearchItem clean item apiSite).episodes) :
    startsHttpB e.data = true := by
  unfold transformApiSearchItem at he
  simp only [] at he
  obtain ⟨l, hl, rfl⟩ := List.mem_map.1 he
  show startsHttpB l = true
  split at hl
  · exact dedupStripTrim_starts_http (fun m hm => selectBestGroup_member_shape hm) hl
  · simp [dedupStripTrim, uniqueFirst, uniqueFirstAux] at hl

theorem structured_episode_starts_http {playUrl l : List Char}
    (hl : l ∈ detailEpisodesStructured playUrl) : startsHttpB l = true := by
  unfold detailEpisodesStructured at hl
  split at hl
  · simp at hl
  · have h2 := (List.mem_filter.1 hl).2
    rw [Bool.and_eq_true] at h2
    exact h2.2

theorem stripLeadingDollar_http {b : List Char} :
    stripLeadingDollar (httpPre ++ b) = httpPre ++ b := rfl

theorem stripLeadingDollar_https {b : List Char} :
    stripLeadingDollar (httpsPre ++ b) = httpsPre ++ b := rfl

theorem fallback_episode_starts_http {content l : List Char}
    (hl : l ∈ detailEpisodesFallback content) : startsHttpB l = true := by
  unfold detailEpisodesFallback at hl
  obtain ⟨m, hm, rfl⟩ := List.mem_map.1 hl
  obtain ⟨b, hb⟩ := scan_plain_member_shape hm
  rcases hb with hb | hb <;> subst hb
  · rw [stripLeadingDollar_http]
    exact startsHttpB_of_http
  · rw [stripLeadingDollar_https]
    exact startsHttpB_of_https

theorem detailResult_episode_starts_http (clean : Option String → String)
    (apiSite : ApiSite) (id : String) (videoDetail : ApiSearchItem) {e : String}
    (he : e ∈ (detailResult clean apiSite id videoDetail).episodes) :
    startsHttpB e.data = true := by
  unfold detailResult at he
  simp only [] at he
  obtain ⟨l, hl, rfl⟩ := List.mem_map.1 he
  show startsHttpB l = true
  split at hl
  · exact fallback_episode_starts_http hl
  · unfold detailStructuredOf at hl
    split at hl
    · exact structured_episode_starts_http hl
    · simp at hl

theorem html_episode_starts_http (clean : Option String → String)
    (id : String) (apiSite : ApiSite) (o : HtmlOutcome) {r : SearchResult}
    (hr : (handleSpecialSourceDetailT clean id apiSite o).1 = .ok r)
    {e : String} (he : e ∈ r.episodes) : startsHttpB e.data = true := by
  unfold handleSpecialSourceDetailT at hr
  simp only [] at hr
  split at hr
  · exact absurd hr (by simp)
  · exact absurd hr (by simp)
  · rename_i ok status body
    split at hr
    · exact absurd hr (by simp)
    · split at hr
      · exact absurd hr (by simp)
      · rename_i htmlS
        have hrec := Except.ok.inj hr
        subst hrec
        simp only [] at he
        obtain ⟨l, hl, rfl⟩ := List.mem_map.1 he
        show startsHttpB l = true
        refine dedupStripTrim_starts_http (fun m hm => ?_) hl
        unfold m3u8Regex ffzyPattern at hm
        repeat split at hm
        all_goals exact scan_dollar_member_shape hm

theorem getDetailJsonT_ok {clean : Option String → String} {apiSite : ApiSite}
    {id : String} {o : FetchOutcome} {r : SearchResult}
    (h : (getDetailJsonT clean apiSite id o).1 = .ok r) :
    ∃ vd, r = detailResult clean apiSite id vd := by
  unfold getDetailJsonT at h
  simp only [] at h
  split at h
  · exact absurd h (by simp)
  · exact absurd h (by simp)
  · split at h
    · exact absurd h (by simp)
    · split at h
      · exact absurd h (by simp)
      · exact absurd h (by simp)
      · exact absurd h (by simp)
      · exact absurd h (by simp)
      · exact ⟨_, (Except.ok.inj h).symm⟩

/-- **C1, counterexample.**  In the JSON detail branch the
structured-episode mode neither deduplicates nor restricts to `.m3u8`
URLs: a play list repeating the same `.mp4` URL twice is returned twice,
so `episodes` is not deduplicated and contains a URL without the
stream-manifest extension, contradicting the claimed invariant. -/
theorem claim1_counterexample :
    ((getDetailJsonT (fun _ => "") ⟨"k", "n", "a", none⟩ "9"
        (.response true 200 (some (.obj (some
          [⟨"9", "t", "p", none, some "a$http://x/v.mp4#b$http://x/v.mp4",
            none, none, none, none, none⟩]) none)))).1.toOption.map
        SearchResult.episodes) = some ["http://x/v.mp4", "http://x/v.mp4"] ∧
    endsWithM3u8 "http://x/v.mp4".data = false ∧
    ¬ (["http://x/v.mp4", "http://x/v.mp4"] : List String).Nodup := by
  refine ⟨by decide, by decide, by decide⟩

/-- **C1** (amended).  Every episode produced by any of the public
operations — search-item normalization, the JSON detail branch in both its
structured-episode and fallback modes, and the HTML-scrape branch — is an
absolute URL starting with `http://` or `https://`.  (The original claim's
deduplication and `.m3u8`-extension guarantees fail, see the
counterexample: structured-episode mode filters only on the protocol
prefix and never deduplicates, and the dollar-prefixed modes deduplicate
before trimming the parenthetical suffix, which can also cut off the
`.m3u8` ending.) -/
theorem claim1_episodes_start_http
    (clean : Option String → String) (item : ApiSearchItem) (apiSite : ApiSite)
    (id : String) (jsonO : FetchOutcome) (htmlO : HtmlOutcome) :
    (∀ e ∈ (transformApiSearchItem clean item apiSite).episodes,
      startsHttpB e.data = true) ∧
    (∀ r, (getDetailJsonT clean apiSite id jsonO).1 = .ok r →
      ∀ e ∈ r.episodes, startsHttpB e.data = true) ∧
    (∀ r, (handleSpecialSourceDetailT clean id apiSite htmlO).1 = .ok r →
      ∀ e ∈ r.episodes, startsHttpB e.data = true) := by
  refine ⟨fun e he => transform_episode_starts_http clean item apiSite he,
    fun r hr e he => ?_,
    fun r hr e he => html_episode_starts_http clean id apiSite htmlO hr he⟩
  obtain ⟨vd, rfl⟩ := getDetailJsonT_ok hr
  exact detailResult_episode_starts_http clean apiSite id vd he

/-- **C1, witness.**  The amended theorem applied at a concrete search
item with one episode. -/
theorem claim1_witness : startsHttpB "https://a.com/1.m3u8".data = true := by
  have h := (claim1_episodes_start_http (fun _ => "")
    ⟨"1", "t", "p", none, some "$https://a.com/1.m3u8", none, none, none, none, none⟩
    ⟨"k", "n", "a", none⟩ "9" (.response true 200 none) .abort).1
  exact h "https://a.com/1.m3u8" (by decide)

/-- **C2.**  `searchFromApi` never fails outward: under every fetch
outcome its top-level catch yields an `ok` result, and every failing fetch
outcome (network failure, timeout, non-2xx status, unparsable body, falsy
data, missing or empty `list`) makes that page's contribution the empty
list inside `fetchSearchResults` rather than an error. -/
theorem claim2_search_never_fails
    (clean : Option String → String) (apiSite : ApiSite) (maxPages : Nat)
    (env : SearchEnv) (schedule : List Nat) :
    (∃ r, (searchFromApiT clean apiSite maxPages env schedule).1 = .ok r) ∧
    (∀ o, isFailingOutcome o = true → fetchSearchResults clean apiSite o = []) := by
  constructor
  · unfold searchFromApiT
    rcases h : searchBodyT clean apiSite maxPages env schedule with ⟨fst, snd⟩
    cases fst with
    | ok r => exact ⟨r, rfl⟩
    | error e => exact ⟨[], rfl⟩
  · intro o ho
    cases o with
    | abort => rfl
    | netError => rfl
    | response ok status body =>
      cases ok with
      | false => rfl
      | true =>
        cases body with
        | none => rfl
        | some jb =>
          cases jb with
          | null => rfl
          | obj list pc =>
            cases list with
            | none => rfl
            | some items =>
              simp only [isFailingOutcome, Bool.not_true, Bool.false_or] at ho
              rw [List.isEmpty_iff] at ho
              subst ho
              rfl

/-- **C2, witness.**  The theorem applied to a concrete environment, with
the timeout outcome as the failing page. -/
theorem claim2_witness :
    isFailingOutcome .abort = true ∧
    fetchSearchResults (fun _ => "") ⟨"k", "n", "a", none⟩ .abort = [] :=
  ⟨by decide,
   (claim2_search_never_fails (fun _ => "") ⟨"k", "n", "a", none⟩ 3
      ⟨fun _ => .abort, .abort⟩ []).2 .abort (by decide)⟩

theorem requestFailedMsg_ne_invalid (status : Nat) :
    invalidPayloadMsg ≠ requestFailedMsg status := by
  intro h
  have h1 : (requestFailedMsg status).data.head? = some '详' := rfl
  have h2 : invalidPayloadMsg.data.head? = some '获' := rfl
  rw [h, h1] at h2
  exact absurd (Option.some.inj h2) (by decide)

/-- **C3.**  For a source without an HTML-detail base, the JSON detail
branch fails with the status-bearing request-failed error exactly when the
response status is non-2xx (and its message contains the status code), and
fails with the invalid-payload error exactly when the parsed body lacks a
non-empty `list` array; a failing (non-2xx) lookup never yields a result. -/
theorem claim3_detail_error_taxonomy
    (clean : Option String → String) (apiSite : ApiSite)
    (hd : jsTruthyStr apiSite.detail = false) (id : String)
    (ok : Bool) (status : Nat) (body : Option JsonBody) (htmlO : HtmlOutcome) :
    ((getDetailFromApiT clean apiSite id (.response ok status body) htmlO).1
        = .error (.jsError (requestFailedMsg status)) ↔ ok = false) ∧
    ((getDetailFromApiT clean apiSite id (.response ok status body) htmlO).1
        = .error (.jsError invalidPayloadMsg) ↔
      (ok = true ∧ (body = some .null ∨ (∃ pc, body = some (.obj none pc)) ∨
        (∃ pc, body = some (.obj (some []) pc))))) ∧
    (ok = false → ∀ res,
      (getDetailFromApiT clean apiSite id (.response ok status body) htmlO).1
        ≠ .ok res) ∧
    (∃ pre suf, (requestFailedMsg status).data
        = pre ++ (toString status).data ++ suf) := by
  have hne := requestFailedMsg_ne_invalid status
  have hmsg : ∃ pre suf, (requestFailedMsg status).data
      = pre ++ (toString status).data ++ suf :=
    ⟨"详情请求失败: ".data, [], by simp [requestFailedMsg]⟩
  have hbranch : getDetailFromApiT clean apiSite id (.response ok status body) htmlO
      = getDetailJsonT clean apiSite id (.response ok status body) := by
    unfold getDetailFromApiT
    simp [hd]
  rw [hbranch]
  cases ok with
  | false =>
    have hr : (getDetailJsonT clean apiSite id (.response false status body)).1
        = .error (.jsError (requestFailedMsg status)) := rfl
    exact ⟨by rw [hr]; simp, by rw [hr]; simp [Ne.symm hne], by rw [hr]; simp, hmsg⟩
  | true =>
    cases body with
    | none =>
      have hr : (getDetailJsonT clean apiSite id (.response true status none)).1
          = .error .parseError := rfl
      exact ⟨by rw [hr]; simp, by rw [hr]; simp, by simp, hmsg⟩
    | some jb =>
      cases jb with
      | null =>
        have hr : (getDetailJsonT clean apiSite id
            (.response true status (some .null))).1
            = .error (.jsError invalidPayloadMsg) := rfl
        exact ⟨by rw [hr]; simp [hne], by rw [hr]; simp, by simp, hmsg⟩
      | obj list pc =>
        cases list with
        | none =>
          have hr : (getDetailJsonT clean apiSite id
              (.response true status (some (.obj none pc)))).1
              = .error (.jsError invalidPayloadMsg) := rfl
          refine ⟨by rw [hr]; simp [hne], by rw [hr]; simp, by simp, hmsg⟩
        | some items =>
          cases items with
          | nil =>
            have hr : (getDetailJsonT clean apiSite id
                (.response true status (some (.obj (some []) pc)))).1
                = .error (.jsError invalidPayloadMsg) := rfl
            exact ⟨by rw [hr]; simp [hne], by rw [hr]; simp, by simp, hmsg⟩
          | cons vd rest =>
            have hr : (getDetailJsonT clean apiSite id
                (.response true status (some (.obj (some (vd :: rest)) pc)))).1
                = .ok (detailResult clean apiSite id vd) := rfl
            exact ⟨by rw [hr]; simp, by rw [hr]; simp, by simp, hmsg⟩

/-- **C3, witness.**  The theorem instantiated at a 404 response and at an
empty-`list` payload. -/
theorem claim3_witness :
    (getDetailFromApiT (fun _ => "") ⟨"k", "n", "a", none⟩ "9"
        (.response false 404 none) .abort).1
      = .error (.jsError (requestFailedMsg 404)) ∧
    (getDetailFromApiT (fun _ => "") ⟨"k", "n", "a", none⟩ "9"
        (.response true 200 (some (.obj (some []) none))) .abort).1
      = .error (.jsError invalidPayloadMsg) :=
  ⟨((claim3_detail_error_taxonomy (fun _ => "") ⟨"k", "n", "a", none⟩ (by decide)
      "9" false 404 none .abort).1).2 rfl,
   ((claim3_detail_error_taxonomy (fun _ => "") ⟨"k", "n", "a", none⟩ (by decide)
      "9" true 200 (some (.obj (some []) none)) .abort).2.1).2
      ⟨rfl, Or.inr (Or.inr ⟨none, rfl⟩)⟩⟩

/-- **C10.**  For two well-formed detail payloads whose `list` arrays
agree on their first element, the JSON detail branch produces the same
result for the same source and id: nothing beyond `list[0]` (in
particular neither the tail of `list` nor `pagecount`) influences the
output. -/
theorem claim10_detail_depends_only_on_head
    (clean : Option String → String) (apiSite : ApiSite) (id : String)
    (ok : Bool) (status : Nat) (a : ApiSearchItem)
    (r1 r2 : List ApiSearchItem) (pc1 pc2 : Option Nat) :
    getDetailJsonT clean apiSite id
        (.response ok status (some (.obj (some (a :: r1)) pc1)))
      = getDetailJsonT clean apiSite id
        (.response ok status (some (.obj (some (a :: r2)) pc2))) := by
  cases ok <;> rfl

theorem digits4At_some {cs w : List Char} (h : digits4At cs = some w) :
    w = cs.take 4 ∧ isDigitWindow cs 0 = true := by
  rcases cs with _ | ⟨a, _ | ⟨b, _ | ⟨c, _ | ⟨d, rest⟩⟩⟩⟩
  · simp [digits4At] at h
  · simp [digits4At] at h
  · simp [digits4At] at h
  · simp [digits4At] at h
  · simp only [digits4At] at h
    split at h
    · rename_i hcond
      simp only [Bool.and_eq_true] at hcond
      constructor
      · rw [← Option.some.inj h]
        rfl
      · simp [isDigitWindow, hcond.1.1.1, hcond.1.1.2, hcond.1.2, hcond.2]
    · exact absurd h (by simp)

theorem digits4At_none {cs : List Char} (h : digits4At cs = none) :
    isDigitWindow cs 0 = false := by
  rcases cs with _ | ⟨a, _ | ⟨b, _ | ⟨c, _ | ⟨d, rest⟩⟩⟩⟩
  · rfl
  · rfl
  · rfl
  · rfl
  · simp only [digits4At] at h
    split at h
    · exact absurd h (by simp)
    · rename_i hcond
      simp only [isDigitWindow]
      simp only [Bool.and_eq_true, not_and] at hcond ⊢
      simp only [List.drop_zero, List.take_succ_cons, List.take_zero]
      rw [Bool.and_eq_false_iff]
      right
      cases ha : a.isDigit <;> cases hb : b.isDigit <;> cases hc : c.isDigit
        <;> cases hd : d.isDigit <;> simp_all

theorem find4Digits_some {cs w : List Char} (h : find4Digits cs = some w) :
    ∃ i, w = (cs.drop i).take 4 ∧ isDigitWindow cs i = true ∧
      ∀ j, j < i → isDigitWindow cs j = false := by
  induction cs with
  | nil => simp [find4Digits] at h
  | cons c rest ih =>
    simp only [find4Digits] at h
    split at h
    · rename_i m hm
      obtain ⟨hw, hwin⟩ := digits4At_some (hm.trans h)
      exact ⟨0, hw, hwin, fun j hj => absurd hj (Nat.not_lt_zero j)⟩
    · rename_i hm
      obtain ⟨i, hw, hwin, hbefore⟩ := ih h
      refine ⟨i + 1, hw, hwin, fun j hj => ?_⟩
      cases j with
      | zero => exact digits4At_none hm
      | succ j => exact hbefore j (Nat.lt_of_succ_lt_succ hj)

theorem find4Digits_none {cs : List Char} (h : find4Digits cs = none)
    (j : Nat) : isDigitWindow cs j = false := by
  induction cs generalizing j with
  | nil => cases j <;> rfl
  | cons c rest ih =>
    simp only [find4Digits] at h
    split at h
    · exact absurd h (by simp)
    · rename_i hm
      cases j with
      | zero => exact digits4At_none hm
      | succ j => exact ih h j

/-- **C6, counterexample.**  A present but digit-free year field is
normalized to the empty string, not to `"unknown"`: the `|| ''` fallback
of `vod_year.match(/\d{4}/)?.[0] || ''` applies whenever the truthy field
has no 4-digit run. -/
theorem claim6_counterexample :
    (transformApiSearchItem (fun _ => "")
        ⟨"1", "t", "p", none, none, none, some "abc", none, none, none⟩
        ⟨"k", "n", "a", none⟩).year = "" ∧
    ("" : String) ≠ "unknown" := by
  exact ⟨by decide, by decide⟩

/-- **C6** (amended).  Year normalization returns the first
4-consecutive-digit substring of the raw year field; a missing or empty
field yields `"unknown"`, but a non-empty field without four consecutive
digits yields `""` (not `"unknown"`, see the counterexample). -/
theorem claim6_year_spec :
    normalizeYear none = "unknown" ∧
    normalizeYear (some "") = "unknown" ∧
    (∀ s w, s.data ≠ [] → find4Digits s.data = some w →
      normalizeYear (some s) = String.mk w ∧
      ∃ i, w = (s.data.drop i).take 4 ∧ isDigitWindow s.data i = true ∧
        ∀ j, j < i → isDigitWindow s.data j = false) ∧
    (∀ s, s.data ≠ [] → find4Digits s.data = none →
      normalizeYear (some s) = "" ∧ ∀ j, isDigitWindow s.data j = false) := by
  refine ⟨rfl, rfl, fun s w hne hfind => ?_, fun s hne hfind => ?_⟩
  · have hie : s.data.isEmpty = false := by
      cases h2 : s.data with
      | nil => exact absurd h2 hne
      | cons a l => rfl
    constructor
    · simp [normalizeYear, hie, hfind]
    · exact find4Digits_some hfind
  · have hie : s.data.isEmpty = false := by
      cases h2 : s.data with
      | nil => exact absurd h2 hne
      | cons a l => rfl
    constructor
    · simp [normalizeYear, hie, hfind]
    · exact find4Digits_none hfind

/-- **C6, witness.**  The amended theorem applied at the year field
`"2011年"`. -/
theorem claim6_witness :
    normalizeYear (some "2011年") = "2011" ∧ normalizeYear (some "") = "unknown" := by
  have h := claim6_year_spec
  refine ⟨?_, h.2.1⟩
  have h2 := (h.2.2.1 "2011年" "2011".data (by decide) (by decide)).1
  exact h2

/-- **C7, counterexample.**  The JSON detail branch does not normalize the
title: `vod_name` is passed through untrimmed and uncollapsed, while
search normalization trims and collapses the very same raw value. -/
theorem claim7_counterexample :
    ((getDetailJsonT (fun _ => "") ⟨"k", "n", "a", none⟩ "9"
        (.response true 200 (some (.obj (some
          [⟨"9", " Foo  Bar ", "p", none, none, none, none, none, none, none⟩])
          none)))).1.toOption.map SearchResult.title) = some " Foo  Bar " ∧
    (transformApiSearchItem (fun _ => "")
        ⟨"9", " Foo  Bar ", "p", none, none, none, none, none, none, none⟩
        ⟨"k", "n", "a", none⟩).title = "Foo Bar" ∧
    (" Foo  Bar " : String) ≠ "Foo Bar" := by
  exact ⟨by decide, by decide, by decide⟩

/-- **C7** (amended).  On a well-formed payload the JSON detail branch
returns `list[0]` normalized with the same year extraction and the same
pass-through of poster, class, type and rating id as search normalization,
and the same description stripping whenever `vod_content` is present; the
title, however, is returned verbatim (not trimmed/collapsed as in
search-result normalization, see the counterexample). -/
theorem claim7_detail_vs_search_normalization
    (clean : Option String → String) (apiSite : ApiSite)
    (hd : jsTruthyStr apiSite.detail = false) (id : String) (status : Nat)
    (item : ApiSearchItem) (rest : List ApiSearchItem) (pc : Option Nat)
    (htmlO : HtmlOutcome) :
    (getDetailFromApiT clean apiSite id
        (.response true status (some (.obj (some (item :: rest)) pc))) htmlO).1
      = .ok (detailResult clean apiSite id item) ∧
    (detailResult clean apiSite id item).year
      = (transformApiSearchItem clean item apiSite).year ∧
    (detailResult clean apiSite id item).poster
      = (transformApiSearchItem clean item apiSite).poster ∧
    (detailResult clean apiSite id item).«class»
      = (transformApiSearchItem clean item apiSite).«class» ∧
    (detailResult clean apiSite id item).type_name
      = (transformApiSearchItem clean item apiSite).type_name ∧
    (detailResult clean apiSite id item).douban_id
      = (transformApiSearchItem clean item apiSite).douban_id ∧
    (∀ c, item.vod_content = some c →
      (detailResult clean apiSite id item).desc
        = (transformApiSearchItem clean item apiSite).desc) ∧
    (detailResult clean apiSite id item).title = item.vod_name := by
  refine ⟨?_, rfl, rfl, rfl, rfl, rfl, fun c hc => ?_, rfl⟩
  · simp [getDetailFromApiT, hd]
    rfl
  · show clean item.vod_content = clean (some (item.vod_content.getD ""))
    rw [hc]
    rfl

/-- **C7, witness.**  The amended theorem applied at a concrete payload
with a present `vod_content`. -/
theorem claim7_witness :
    (getDetailFromApiT (fun o => o.getD "") ⟨"k", "n", "a", none⟩ "9"
        (.response true 200 (some (.obj (some
          [⟨"9", " T ", "p", none, none, none, some "2011x", some "D",
            none, none⟩]) none))) .abort).1
      = .ok (detailResult (fun o => o.getD "") ⟨"k", "n", "a", none⟩ "9"
          ⟨"9", " T ", "p", none, none, none, some "2011x", some "D", none, none⟩) ∧
    (detailResult (fun o => o.getD "") ⟨"k", "n", "a", none⟩ "9"
        ⟨"9", " T ", "p", none, none, none, some "2011x", some "D", none, none⟩).desc
      = (transformApiSearchItem (fun o => o.getD "")
          ⟨"9", " T ", "p", none, none, none, some "2011x", some "D", none, none⟩
          ⟨"k", "n", "a", none⟩).desc := by
  have h := claim7_detail_vs_search_normalization (fun o => o.getD "")
    ⟨"k", "n", "a", none⟩ (by decide) "9" 200
    ⟨"9", " T ", "p", none, none, none, some "2011x", some "D", none, none⟩
    [] none .abort
  exact ⟨h.1, h.2.2.2.2.2.2.1 "D" rfl⟩

theorem matchUrlAt_m3u8_suffix {cs m rem : List Char}
    (h : matchUrlAt m3u8Tail cs = some (m, rem)) :
    ∃ pre, m = pre ++ ".m3u8".data := by
  unfold matchUrlAt m3u8Tail at h
  split at h
  · exact absurd h (by simp)
  · rename_i p r hp
    split at h
    · rename_i b rem2 hb
      simp at h
      obtain ⟨pre2, hpre2⟩ := lazyBodyThen_expectLit_suffix hb
      exact ⟨p ++ pre2, by rw [← h.1, hpre2, List.append_assoc]⟩
    · exact absurd h (by simp)

/-- **C8, counterexample.**  The fallback content scan returns `.m3u8`
URLs that carry no dollar prefix at all: `M3U8_PATTERN` (line 139) has no
`\$`, so a bare URL inside `vod_content` is extracted even though the
claim says non-dollar-prefixed URLs are not returned. -/
theorem claim8_counterexample :
    ((getDetailJsonT (fun _ => "") ⟨"k", "n", "a", none⟩ "9"
        (.response true 200 (some (.obj (some
          [⟨"9", "t", "p", none, none, none, none,
            some "see http://a.com/x.m3u8 ok", none, none⟩]) none)))).1.toOption.map
        SearchResult.episodes) = some ["http://a.com/x.m3u8"] ∧
    ('$' ∈ "see http://a.com/x.m3u8 ok".data → False) := by
  exact ⟨by decide, by decide⟩

/-- **C8** (amended).  When structured-episode extraction yields nothing
and the content field is present and non-empty, the fallback returns
exactly the `.m3u8` URLs matched in the raw content by the general
pattern — which requires no dollar prefix, making the subsequent
`replace(/^\$/, '')` a no-op — and every returned episode is an absolute
`http(s)` URL ending in `.m3u8`. -/
theorem claim8_fallback_scan
    (clean : Option String → String) (apiSite : ApiSite) (id : String)
    (videoDetail : ApiSearchItem) (c : String)
    (hstruct : detailStructuredOf videoDetail = [])
    (hc : videoDetail.vod_content = some c) (hcne : c.data ≠ []) :
    (detailResult clean apiSite id videoDetail).episodes
      = (scanAllL M3U8_PATTERN c.data).map
          (fun l => String.mk (stripLeadingDollar l)) ∧
    (∀ m ∈ scanAllL M3U8_PATTERN c.data, stripLeadingDollar m = m) ∧
    (∀ e ∈ (detailResult clean apiSite id videoDetail).episodes,
      startsHttpB e.data = true ∧ ∃ pre, e.data = pre ++ ".m3u8".data) := by
  have hie : c.data.isEmpty = false := by
    cases h2 : c.data with
    | nil => exact absurd h2 hcne
    | cons a l => rfl
  have htr : jsTruthyStr videoDetail.vod_content = true := by
    rw [hc]
    simp [jsTruthyStr, hie]
  have hnoop : ∀ m ∈ scanAllL M3U8_PATTERN c.data, stripLeadingDollar m = m := by
    intro m hm
    obtain ⟨b, hb⟩ := scan_plain_member_shape hm
    rcases hb with hb | hb <;> subst hb
    · exact stripLeadingDollar_http
    · exact stripLeadingDollar_https
  have heq : (detailResult clean apiSite id videoDetail).episodes
      = (scanAllL M3U8_PATTERN c.data).map
          (fun l => String.mk (stripLeadingDollar l)) := by
    unfold detailResult
    simp only []
    rw [hstruct]
    simp only [List.length_nil, htr, hc]
    rw [if_pos (by simp [jsTruthyStr, hie])]
    unfold detailEpisodesFallback
    rw [List.map_map]
    rfl
  refine ⟨heq, hnoop, fun e he => ?_⟩
  rw [heq] at he
  obtain ⟨m, hm, rfl⟩ := List.mem_map.1 he
  rw [hnoop m hm]
  constructor
  · obtain ⟨b, hb⟩ := scan_plain_member_shape hm
    show startsHttpB m = true
    rcases hb with hb | hb <;> subst hb
    · exact startsHttpB_of_http
    · exact startsHttpB_of_https
  · obtain ⟨cs0, rem, hmm⟩ := mem_scanAllF hm
    obtain ⟨pre, hpre⟩ := matchUrlAt_m3u8_suffix hmm
    exact ⟨pre, hpre⟩

/-- **C8, witness.**  The amended theorem applied at a concrete content
field whose single `.m3u8` URL follows (but does not include) a dollar. -/
theorem claim8_witness :
    (detailResult (fun _ => "") ⟨"k", "n", "a", none⟩ "9"
        ⟨"9", "t", "p", none, none, none, none,
          some "x $https://a.b/c.m3u8", none, none⟩).episodes
      = (scanAllL M3U8_PATTERN "x $https://a.b/c.m3u8".data).map
          (fun l => String.mk (stripLeadingDollar l)) := by
  exact (claim8_fallback_scan (fun _ => "") ⟨"k", "n", "a", none⟩ "9"
    ⟨"9", "t", "p", none, none, none, none,
      some "x $https://a.b/c.m3u8", none, none⟩
    "x $https://a.b/c.m3u8" (by decide) rfl (by decide)).1

theorem selectStep_acc_le (acc : List (List Char)) (g : List Char) :
    acc.length ≤ (selectStep acc g).length := by
  unfold selectStep
  simp only []
  split
  · rename_i h
    exact Nat.le_of_lt h
  · exact Nat.le_refl _

theorem selectStep_arg_le (acc : List (List Char)) (g : List Char) :
    (scanAllL m3u8Regex g).length ≤ (selectStep acc g).length := by
  unfold selectStep
  simp only []
  split
  · exact Nat.le_refl _
  · rename_i h
    exact Nat.le_of_not_lt h

theorem foldl_selectStep_acc_le (gs : List (List Char)) (acc : List (List Char)) :
    acc.length ≤ (gs.foldl selectStep acc).length := by
  induction gs generalizing acc with
  | nil => exact Nat.le_refl _
  | cons g gs ih =>
    rw [List.foldl_cons]
    exact Nat.le_trans (selectStep_acc_le acc g) (ih (selectStep acc g))

theorem foldl_selectStep_mem_le (gs : List (List Char)) (acc : List (List Char)) :
    ∀ g ∈ gs, (scanAllL m3u8Regex g).length ≤ (gs.foldl selectStep acc).length := by
  induction gs generalizing acc with
  | nil => intro g hg; simp at hg
  | cons g0 gs ih =>
    intro g hg
    rw [List.foldl_cons]
    rcases List.mem_cons.1 hg with rfl | hg2
    · exact Nat.le_trans (selectStep_arg_le acc g)
        (foldl_selectStep_acc_le gs (selectStep acc g))
    · exact ih (selectStep acc g0) g hg2

theorem foldl_selectStep_idx (gs : List (List Char)) (acc : List (List Char)) :
    gs.foldl selectStep acc = acc ∨
    ∃ i, i < gs.length ∧
      gs.foldl selectStep acc = scanAllL m3u8Regex (gs.getD i []) ∧
      acc.length < (gs.foldl selectStep acc).length ∧
      ∀ j, j < i →
        (scanAllL m3u8Regex (gs.getD j [])).length < (gs.foldl selectStep acc).length := by
  induction gs generalizing acc with
  | nil => exact Or.inl rfl
  | cons g gs ih =>
    rw [List.foldl_cons]
    rcases ih (selectStep acc g) with h | ⟨i, hi, heq, hacc, hbefore⟩
    · rw [h]
      unfold selectStep
      simp only []
      split
      · rename_i hgt
        exact Or.inr ⟨0, Nat.succ_pos _, rfl, hgt,
          fun j hj => absurd hj (Nat.not_lt_zero j)⟩
      · exact Or.inl rfl
    · refine Or.inr ⟨i + 1, Nat.succ_lt_succ hi, heq, ?_, ?_⟩
      · exact Nat.lt_of_le_of_lt (selectStep_acc_le acc g) hacc
      · intro j hj
        cases j with
        | zero => exact Nat.lt_of_le_of_lt (selectStep_arg_le acc g) hacc
        | succ j => exact hbefore j (Nat.lt_of_succ_lt_succ hj)

theorem splitOnAux_ne_nil (sep : List Char) (fuel : Nat) (acc cs : List Char) :
    splitOnAux sep fuel acc cs ≠ [] := by
  induction fuel generalizing acc cs with
  | zero => simp [splitOnAux]
  | succ fuel ih =>
    unfold splitOnAux
    split
    · simp
    · split
      · simp
      · exact ih _ _

theorem splitOnL_ne_nil (sep cs : List Char) : splitOnL sep cs ≠ [] :=
  splitOnAux_ne_nil sep (cs.length + 1) [] cs

theorem getD_mem {α : Type} {l : List α} {j : Nat} (d : α) (hj : j < l.length) :
    l.getD j d ∈ l := by
  induction l generalizing j with
  | nil => simp at hj
  | cons a l ih =>
    cases j with
    | zero => exact List.mem_cons_self a l
    | succ j => exact List.mem_cons_of_mem a (ih (Nat.lt_of_succ_lt_succ hj))

/-- **C5, counterexample.**  Deduplication happens on the raw
dollar-prefixed matches *before* the parenthetical trim: two matches that
differ only inside parentheses trim to the same URL and are both kept, so
the output is not deduplicated by equality-after-trimming as claimed. -/
theorem claim5_counterexample :
    (transformApiSearchItem (fun _ => "")
        ⟨"1", "t", "p", none, some "$http://a(1).m3u8$http://a(2).m3u8",
          none, none, none, none, none⟩
        ⟨"k", "n", "a", none⟩).episodes = ["http://a", "http://a"] ∧
    ¬ (["http://a", "http://a"] : List String).Nodup := by
  exact ⟨by decide, by decide⟩

/-- **C5** (amended).  Delimited-list extraction splits the raw play URL
on `'$$$'` and selects the group with the greatest number of
dollar-prefixed `http(s)` `.m3u8` matches, ties keeping the first such
group; the selected raw matches are then deduplicated by exact string
equality *before* the dollar strip and the parenthetical trim (not after
trimming, see the counterexample), preserving first-seen order, and the
HTML-scrape branch postprocesses its matches with exactly the same
dedup-then-strip-then-trim pipeline. -/
theorem claim5_delimited_extraction
    (clean : Option String → String) (item : ApiSearchItem) (apiSite : ApiSite)
    (pu : String) (hpu : item.vod_play_url = some pu) (hne : pu.data ≠ []) :
    (∃ i, i < (splitOnL "$$$".data pu.data).length ∧
      selectBestGroup pu.data
        = scanAllL m3u8Regex ((splitOnL "$$$".data pu.data).getD i []) ∧
      (∀ j, j < (splitOnL "$$$".data pu.data).length →
        (scanAllL m3u8Regex ((splitOnL "$$$".data pu.data).getD j [])).length
          ≤ (selectBestGroup pu.data).length) ∧
      (∀ j, j < i →
        (scanAllL m3u8Regex ((splitOnL "$$$".data pu.data).getD j [])).length
          < (selectBestGroup pu.data).length)) ∧
    (transformApiSearchItem clean item apiSite).episodes
      = (dedupStripTrim (selectBestGroup pu.data)).map String.mk ∧
    (∀ (clean2 : Option String → String) (id : String) (apiSite2 : ApiSite),
      apiSite2.key ≠ "ffzy" → ∀ (status : Nat) (htmlS : String) (r : SearchResult),
        (handleSpecialSourceDetailT clean2 id apiSite2
            (.response true status (some htmlS))).1 = .ok r →
        r.episodes
          = (dedupStripTrim (scanAllL m3u8Regex htmlS.data)).map String.mk) := by
  have hie : pu.data.isEmpty = false := by
    cases h2 : pu.data with
    | nil => exact absurd h2 hne
    | cons a l => rfl
  refine ⟨?_, ?_, ?_⟩
  · show ∃ i, _
    unfold selectBestGroup
    rcases foldl_selectStep_idx (splitOnL "$$$".data pu.data) [] with h | hidx
    · rcases hgs : splitOnL "$$$".data pu.data with _ | ⟨g, rest⟩
      · exact absurd hgs (splitOnL_ne_nil _ _)
      · rw [hgs] at h
        refine ⟨0, Nat.succ_pos _, ?_, ?_, fun j hj => absurd hj (Nat.not_lt_zero j)⟩
        · have hle := foldl_selectStep_mem_le (g :: rest) [] g (List.mem_cons_self g rest)
          rw [h] at hle
          have hz : scanAllL m3u8Regex g = [] := List.eq_nil_of_length_eq_zero
            (Nat.le_zero.1 hle)
          rw [h]
          exact hz.symm
        · intro j hj
          have := foldl_selectStep_mem_le (g :: rest) []
            ((g :: rest).getD j []) (getD_mem [] hj)
          exact this
    · obtain ⟨i, hi, heq, _, hbef⟩ := hidx
      exact ⟨i, hi, heq, fun j hj =>
        foldl_selectStep_mem_le _ [] _ (getD_mem [] hj), hbef⟩
  · unfold transformApiSearchItem
    simp only [hpu]
    rw [if_pos (by simp [jsTruthyStr, hie])]
    rfl
  · intro clean2 id apiSite2 hk status htmlS r hr
    unfold handleSpecialSourceDetailT at hr
    simp only [] at hr
    rw [if_neg (by simp)] at hr
    have hrec := Except.ok.inj hr
    subst hrec
    simp only [if_neg hk]
    rfl

/-- **C5, witness.**  The amended theorem applied at the spec's example
play URL with two play-source groups. -/
theorem claim5_witness :
    (transformApiSearchItem (fun _ => "")
        ⟨"1", "t", "p", none,
          some "$https://a.com/1.m3u8(clip)$$$https://b.com/1.m3u8#$https://b.com/2.m3u8",
          none, none, none, none, none⟩
        ⟨"k", "n", "a", none⟩).episodes
      = (dedupStripTrim (selectBestGroup
          "$https://a.com/1.m3u8(clip)$$$https://b.com/1.m3u8#$https://b.com/2.m3u8".data)).map
          String.mk := by
  exact (claim5_delimited_extraction (fun _ => "")
    ⟨"1", "t", "p", none,
      some "$https://a.com/1.m3u8(clip)$$$https://b.com/1.m3u8#$https://b.com/2.m3u8",
      none, none, none, none, none⟩
    ⟨"k", "n", "a", none⟩
    "$https://a.com/1.m3u8(clip)$$$https://b.com/1.m3u8#$https://b.com/2.m3u8"
    rfl (by decide)).2.1

/-! ## Lemmas about the `Promise.all` join -/

theorem lookup_eq_some_of {α : Type} {l : List (Nat × α)} {i : Nat} {v : α}
    (hmem : (i, v) ∈ l) (huniq : ∀ p ∈ l, p.1 = i → p.2 = v) :
    l.lookup i = some v := by
  induction l with
  | nil => simp at hmem
  | cons p l ih =>
    rw [List.lookup_cons]
    by_cases h : i = p.1
    · have hbeq : (i == p.1) = true := by simpa using h
      rw [hbeq]
      rw [huniq p (List.mem_cons_self p l) h.symm]
    · have hbeq : (i == p.1) = false := by simpa using h
      rw [hbeq]
      refine ih ?_ (fun q hq hq1 => huniq q (List.mem_cons_of_mem p hq) hq1)
      rcases List.mem_cons.1 hmem with rfl | hmem2
      · exact absurd rfl h
      · exact hmem2

theorem mem_arrivalsOf {α : Type} {tasks : List α} {schedule : List Nat}
    {i : Nat} {v : α} :
    (i, v) ∈ arrivalsOf tasks schedule ↔ i ∈ schedule ∧ tasks.get? i = some v := by
  unfold arrivalsOf
  rw [List.mem_filterMap]
  constructor
  · rintro ⟨j, hj, hf⟩
    cases hg : tasks.get? j with
    | none => rw [hg] at hf; exact absurd hf (by simp)
    | some w =>
      rw [hg] at hf
      simp only [Option.map_some'] at hf
      have h1 : j = i := congrArg Prod.fst (Option.some.inj hf)
      have h2 : w = v := congrArg Prod.snd (Option.some.inj hf)
      subst h1; subst h2
      exact ⟨hj, hg⟩
  · rintro ⟨hi, hg⟩
    exact ⟨i, hi, by rw [hg]; rfl⟩

/-- Whatever the completion order of the concurrently issued tasks, as
long as it is a permutation of the task indices the joined array holds
every task's value at its issue index. -/
theorem promiseAll_perm {α : Type} (tasks : List α) (schedule : List Nat)
    (hperm : schedule.Perm (List.range tasks.length)) :
    promiseAll tasks schedule = tasks.map some := by
  unfold promiseAll
  apply List.ext_getElem
  · simp
  · intro i h1 h2
    simp only [List.getElem_map, List.getElem_range]
    rw [List.length_map, List.length_range] at h1
    have hlen : i < tasks.length := by simpa using h2
    have hget : tasks.get? i = some tasks[i] := by
      simp [List.get?_eq_getElem?, List.getElem?_eq_getElem hlen]
    have hmem : (i, tasks[i]) ∈ arrivalsOf tasks schedule :=
      mem_arrivalsOf.2 ⟨hperm.mem_iff.2 (List.mem_range.2 hlen), hget⟩
    have huniq : ∀ p ∈ arrivalsOf tasks schedule, p.1 = i → p.2 = tasks[i] := by
      rintro ⟨j, w⟩ hp hj
      obtain rfl : j = i := hj
      have h3 := (mem_arrivalsOf.1 hp).2
      exact (Option.some.inj (hget.symm.trans h3)).symm
    exact lookup_eq_some_of hmem huniq

/-- **C4.**  When page 1 yields a non-empty result list, `searchFromApi`
issues exactly the page fetches 1 .. min(pagecount, MAX_SEARCH_PAGES)
(plus the page-count re-fetch of page 1) and returns the concatenation of
per-page results in ascending page order, page 1 first, for *every*
completion order of the concurrently issued page fetches; when page 1
yields zero results it returns immediately, with no page-count lookup and
no further fetches; a missing or zero `pagecount` is treated as 1. -/
theorem claim4_search_pagination
    (clean : Option String → String) (apiSite : ApiSite) (maxPages : Nat)
    (env : SearchEnv) (schedule : List Nat) (_hmax : 1 ≤ maxPages) :
    (fetchSearchResults clean apiSite (env.pageFetch 1) = [] →
      searchFromApiT clean apiSite maxPages env schedule
        = (.ok [], [.searchPage 1 (some 8000)])) ∧
    (fetchSearchResults clean apiSite (env.pageFetch 1) ≠ [] →
      ∀ pc, readPagecount env.countFetch = .ok pc →
        schedule.Perm (List.range (min pc maxPages - 1)) →
        searchFromApiT clean apiSite maxPages env schedule
          = (.ok (fetchSearchResults clean apiSite (env.pageFetch 1) ++
              ((extraPages (min pc maxPages)).map
                (fun p => fetchSearchResults clean apiSite (env.pageFetch p))).flatten),
             .searchPage 1 (some 8000) :: .pageCount none ::
               (extraPages (min pc maxPages)).map
                 (fun p => .searchPage p (some 8000)))) ∧
    (∀ ok2 st2 l, readPagecount (.response ok2 st2 (some (.obj l none))) = .ok 1) ∧
    (∀ ok2 st2 l, readPagecount (.response ok2 st2 (some (.obj l (some 0)))) = .ok 1) := by
  refine ⟨fun h => ?_, fun h pc hpc hsched => ?_, fun _ _ _ => rfl, fun _ _ _ => rfl⟩
  · simp only [searchFromApiT, searchBodyT, h]
    rfl
  · have hlen : ¬ (fetchSearchResults clean apiSite (env.pageFetch 1)).length = 0 := by
      intro h0
      exact h (List.eq_nil_of_length_eq_zero h0)
    simp only [searchFromApiT, searchBodyT]
    rw [if_neg hlen, hpc]
    simp only []
    by_cases hle : min pc maxPages ≤ 1
    · rw [if_pos hle]
      have h1 : min pc maxPages - 1 = 0 := Nat.sub_eq_zero_of_le hle
      simp [extraPages, h1]
    · rw [if_neg hle]
      have hlen2 : ((extraPages (min pc maxPages)).map
          (fun p => fetchSearchResults clean apiSite (env.pageFetch p))).length
          = min pc maxPages - 1 := by
        simp [extraPages]
      rw [promiseAll_perm _ _ (by rw [hlen2]; exact hsched)]
      simp [List.map_map, Function.comp_def, Option.getD_some]

/-- **C4, witness.**  The theorem applied to a concrete environment
reporting `pagecount = 5` under `MAX_SEARCH_PAGES = 3`, with the two
additional pages completing in reversed order (`schedule = [1, 0]`):
exactly pages 1-3 are fetched and concatenated in ascending order. -/
theorem claim4_witness :
    searchFromApiT (fun _ => "") ⟨"k", "n", "a", none⟩ 3
        ⟨fun _ => .response true 200 (some (.obj
            (some [⟨"7", "x", "p", none, none, none, none, none, none, none⟩])
            (some 5))),
         .response true 200 (some (.obj
            (some [⟨"7", "x", "p", none, none, none, none, none, none, none⟩])
            (some 5)))⟩ [1, 0]
      = (.ok (fetchSearchResults (fun _ => "") ⟨"k", "n", "a", none⟩
            (.response true 200 (some (.obj
              (some [⟨"7", "x", "p", none, none, none, none, none, none, none⟩])
              (some 5)))) ++
          ((extraPages (min 5 3)).map (fun _ =>
            fetchSearchResults (fun _ => "") ⟨"k", "n", "a", none⟩
              (.response true 200 (some (.obj
                (some [⟨"7", "x", "p", none, none, none, none, none, none, none⟩])
                (some 5)))))).flatten),
         .searchPage 1 (some 8000) :: .pageCount none ::
           (extraPages (min 5 3)).map (fun p => .searchPage p (some 8000))) := by
  have h := (claim4_search_pagination (fun _ => "") ⟨"k", "n", "a", none⟩ 3
    ⟨fun _ => .response true 200 (some (.obj
        (some [⟨"7", "x", "p", none, none, none, none, none, none, none⟩])
        (some 5))),
     .response true 200 (some (.obj
        (some [⟨"7", "x", "p", none, none, none, none, none, none, none⟩])
        (some 5)))⟩ [1, 0] (by decide)).2.1 (by decide) 5 rfl (by decide)
  exact h

theorem searchBodyT_trace_forms (clean : Option String → String)
    (apiSite : ApiSite) (maxPages : Nat) (env : SearchEnv) (schedule : List Nat) :
    (searchBodyT clean apiSite maxPages env schedule).2
      = [.searchPage 1 (some 8000)] ∨
    ∃ ps : List Nat, (searchBodyT clean apiSite maxPages env schedule).2
      = .searchPage 1 (some 8000) :: .pageCount none ::
          ps.map (fun p => .searchPage p (some 8000)) := by
  unfold searchBodyT
  simp only []
  split
  · exact Or.inl rfl
  · split
    · exact Or.inr ⟨[], rfl⟩
    · split
      · exact Or.inr ⟨[], rfl⟩
      · exact Or.inr ⟨extraPages _, rfl⟩

theorem searchFromApiT_trace (clean : Option String → String)
    (apiSite : ApiSite) (maxPages : Nat) (env : SearchEnv) (schedule : List Nat) :
    (searchFromApiT clean apiSite maxPages env schedule).2
      = (searchBodyT clean apiSite maxPages env schedule).2 := by
  unfold searchFromApiT
  rcases h : searchBodyT clean apiSite maxPages env schedule with ⟨fst, snd⟩
  cases fst <;> rfl

/-- **C9, counterexample.**  The page-count re-fetch of page 1 (line 112)
carries no abort signal and hence no timeout at all, contradicting the
claim that every fetch issued by `searchFromApi` — including the
page-count re-fetch — carries its own timeout. -/
theorem claim9_counterexample :
    (searchFromApiT (fun _ => "") ⟨"k", "n", "a", none⟩ 3
        ⟨fun _ => .response true 200 (some (.obj
            (some [⟨"7", "x", "p", none, none, none, none, none, none, none⟩])
            (some 5))),
         .response true 200 (some (.obj
            (some [⟨"7", "x", "p", none, none, none, none, none, none, none⟩])
            (some 5)))⟩ [1, 0]).2
      = [.searchPage 1 (some 8000), .pageCount none,
         .searchPage 2 (some 8000), .searchPage 3 (some 8000)] ∧
    ¬ (∀ e ∈ (searchFromApiT (fun _ => "") ⟨"k", "n", "a", none⟩ 3
        ⟨fun _ => .response true 200 (some (.obj
            (some [⟨"7", "x", "p", none, none, none, none, none, none, none⟩])
            (some 5))),
         .response true 200 (some (.obj
            (some [⟨"7", "x", "p", none, none, none, none, none, none, none⟩])
            (some 5)))⟩ [1, 0]).2, (timeoutOf e).isSome = true) := by
  exact ⟨by decide, by decide⟩

/-- **C9** (amended).  Every search-page fetch (initial and additional
pages alike) is issued with its own 8000 ms timeout, every detail fetch
(JSON or HTML branch) with its own 10000 ms timeout, while the page-count
re-fetch of page 1 is issued with *no* timeout (see the counterexample);
each page's contribution depends only on that page's own fetch outcome,
so one fetch's failure or abort never affects a sibling. -/
theorem claim9_fetch_timeouts (clean : Option String → String)
    (apiSite : ApiSite) (maxPages : Nat) (env : SearchEnv)
    (schedule : List Nat) (id : String) (jsonO : FetchOutcome)
    (htmlO : HtmlOutcome) :
    (∀ e ∈ (searchFromApiT clean apiSite maxPages env schedule).2,
      (∀ p t, e = .searchPage p t → t = some 8000) ∧
      (∀ t, e = .pageCount t → t = none)) ∧
    (getDetailFromApiT clean apiSite id jsonO htmlO).2
      = [.detailFetch (some 10000)] ∧
    (∀ (env2 : SearchEnv) (p : Nat), env2.pageFetch p = env.pageFetch p →
      fetchSearchResults clean apiSite (env2.pageFetch p)
        = fetchSearchResults clean apiSite (env.pageFetch p)) := by
  refine ⟨fun e he => ?_, ?_, fun env2 p hp => by rw [hp]⟩
  · rw [searchFromApiT_trace] at he
    rcases searchBodyT_trace_forms clean apiSite maxPages env schedule with h | ⟨ps, h⟩
    · rw [h] at he
      simp only [List.mem_singleton] at he
      subst he
      exact ⟨fun p t hpt => ((FetchEvent.searchPage.inj hpt).2).symm,
        fun t ht => FetchEvent.noConfusion ht⟩
    · rw [h] at he
      rcases List.mem_cons.1 he with rfl | he2
      · exact ⟨fun p t hpt => ((FetchEvent.searchPage.inj hpt).2).symm,
          fun t ht => FetchEvent.noConfusion ht⟩
      · rcases List.mem_cons.1 he2 with rfl | he3
        · exact ⟨fun p t hpt => FetchEvent.noConfusion hpt,
            fun t ht => ((FetchEvent.pageCount.inj ht)).symm⟩
        · obtain ⟨p0, _, rfl⟩ := List.mem_map.1 he3
          exact ⟨fun p t hpt => ((FetchEvent.searchPage.inj hpt).2).symm,
            fun t ht => FetchEvent.noConfusion ht⟩
  · unfold getDetailFromApiT
    split
    · rfl
    · rfl

/-- **C9, witness.**  The amended theorem applied at a concrete detail
call and at a concrete member of a concrete search trace. -/
theorem claim9_witness :
    (getDetailFromApiT (fun _ => "") ⟨"k", "n", "a", none⟩ "9" .abort .abort).2
      = [.detailFetch (some 10000)] ∧ (some 8000 : Option Nat) = some 8000 := by
  have h := claim9_fetch_timeouts (fun _ => "") ⟨"k", "n", "a", none⟩ 3
    ⟨fun _ => .abort, .abort⟩ [] "9" .abort .abort
  exact ⟨h.2.1, (h.1 (.searchPage 1 (some 8000)) (by decide)).1 1 (some 8000) rfl⟩
